import Mathlib

/-!
# krecu/openrtb : the bid request envelope

A shallow embedding of `src/bidrequest.go`: the `BidRequest` struct, its
`Copy` method and its `Validate` method, followed by the properties of the
two methods.

Conventions of the embedding.

* A Go pointer field `*T` is an `Option T`: `none` is `nil`, `some v` is a
  non-nil pointer whose pointee currently holds `v`.
* A Go slice `[]T` is an `Option (List T)`: `none` is the nil slice, `some l`
  a non-nil slice with elements `l` (so `some []` is the empty non-nil slice).
* Go `int` fields are only ever moved around, never computed with; they are `Int`.
* The sub-object types (`Impression`, `Site`, `App`, ...) and the method
  `(*Impression).Validate` are declared in other files of the package.  The
  types are parameters, collected in a `Schema`; the method is a parameter of
  `Validate`.
* Which allocation a pointer or a slice refers to is invisible at this level.
  The namespace `Mem` embeds `Copy` a second time with the identity of every
  cell and backing array and with the allocator threaded through; `Copy_erase`
  relates the two embeddings.
-/

set_option autoImplicit false

namespace OpenRTB

/-! ## Go values -/

/-- Go `error` values as the package compares them: the three sentinels created
by `errors.New` at `bidrequest.go:9-11` (pairwise distinct, every `errors.New`
call yields a fresh value) and every other error value, drawn from `E`. -/
inductive Error (E : Type) where
  | ErrInvalidReqNoID
  | ErrInvalidReqNoImps
  | ErrInvalidReqMultiInv
  | other (e : E)
  deriving DecidableEq, Repr

/-- Pointer `*T` seen through its pointee: `none` is `nil`. -/
abbrev Ptr (α : Type) := Option α

/-- Allocation `&T{}`: a fresh non-nil pointer to the zero value. -/
def Ptr.new {α : Type} (zero : α) : Ptr α := some zero

/-- Assignment `*p = v` through a non-nil pointer `p`. -/
def Ptr.store {α : Type} (p : Ptr α) (v : α) : Ptr α := p.map (fun _ => v)

/-- Slice `[]T`: `none` is the nil slice, `some l` a non-nil slice holding `l`. -/
abbrev Slice (α : Type) := Option (List α)

/-- Builtin `len(s)`; the nil slice has length 0. -/
def Slice.len {α : Type} : Slice α → Nat
  | none => 0
  | some l => l.length

/-- Elements visited by `range s`, in order; none for the nil slice. -/
def Slice.elems {α : Type} : Slice α → List α
  | none => []
  | some l => l

/-- Builtin `make([]T, n)`: a non-nil slice of `n` zero values. -/
def Slice.make {α : Type} (n : Nat) (zero : α) : Slice α := some (List.replicate n zero)

/-- Builtin `copy(dst, src)`, returning the new contents of `dst`: the first
`min (len dst) (len src)` elements are overwritten with those of `src`. -/
def Slice.copy {α : Type} (dst src : Slice α) : Slice α :=
  match dst with
  | none => none
  | some d =>
    let n := min d.length src.len
    some (src.elems.take n ++ d.drop n)

/-! ## Data model -/

/-- Types declared outside `bidrequest.go` that the envelope refers to, each
with its Go zero value where the code allocates one. -/
structure Schema where
  Impression : Type
  Site : Type
  App : Type
  Device : Type
  User : Type
  Source : Type
  Regulations : Type
  Extension : Type
  Deal : Type
  /-- Fields of `Pmp` other than `Deals`. -/
  PmpRest : Type
  /-- Error values other than the three sentinels of `bidrequest.go`. -/
  OtherError : Type
  zeroImpression : Impression
  zeroSite : Site
  zeroApp : App
  zeroDevice : Device
  zeroUser : User
  zeroSource : Source
  zeroRegulations : Regulations
  zeroDeal : Deal
  zeroPmpRest : PmpRest

/-- The deprecated `Pmp` block: the code reads and writes its `Deals` field and
copies the remaining fields as a whole. -/
structure Pmp (S : Schema) where
  Deals : Slice S.Deal
  rest : S.PmpRest

/-- Zero value `Pmp{}`. -/
def Pmp.zero (S : Schema) : Pmp S := { Deals := none, rest := S.zeroPmpRest }

/-- The struct `BidRequest` of `bidrequest.go:17-40`, fields in source order. -/
structure BidRequest (S : Schema) where
  ID : String
  Imp : Slice S.Impression
  Site : Ptr S.Site
  App : Ptr S.App
  Device : Ptr S.Device
  User : Ptr S.User
  Test : Int
  AuctionType : Int
  TMax : Int
  WSeat : Slice String
  BSeat : Slice String
  WLang : Slice String
  AllImps : Int
  Cur : Slice String
  Bcat : Slice String
  BAdv : Slice String
  BApp : Slice String
  Source : Ptr S.Source
  Regs : Ptr S.Regulations
  Ext : S.Extension
  Pmp : Ptr (Pmp S)

/-! ## Copy -/

/-- The composite literal of `bidrequest.go:43-50`: six fields taken from `req`,
every other field at its zero value. -/
def BidRequest.copyLiteral {S : Schema} (req : BidRequest S) : BidRequest S :=
  { ID := req.ID
    Imp := none
    Site := none
    App := none
    Device := none
    User := none
    Test := req.Test
    AuctionType := req.AuctionType
    TMax := req.TMax
    WSeat := none
    BSeat := none
    WLang := none
    AllImps := req.AllImps
    Cur := none
    Bcat := none
    BAdv := none
    BApp := none
    Source := none
    Regs := none
    Ext := req.Ext
    Pmp := none }

/-- The `Pmp` branch, `bidrequest.go:77-82`, for a non-nil `req.Pmp` holding `p`:
allocate, copy the struct, and give `Deals` a backing array of its own when it
has at least one element. -/
def Pmp.copyFrom {S : Schema} (p : Pmp S) : Ptr (Pmp S) :=
  let q : Ptr (Pmp S) := Ptr.new (Pmp.zero S)
  let q := q.store p
  if p.Deals.len > 0 then
    q.map (fun c => { c with Deals := Slice.copy (Slice.make p.Deals.len S.zeroDeal) p.Deals })
  else
    q

/-- The method `(*BidRequest).Copy`, `bidrequest.go:42-110`. -/
def BidRequest.Copy {S : Schema} (req : BidRequest S) : BidRequest S :=
  let cp := req.copyLiteral
  let cp := match req.Site with
    | some s => { cp with Site := (Ptr.new S.zeroSite).store s }
    | none => cp
  let cp := match req.App with
    | some a => { cp with App := (Ptr.new S.zeroApp).store a }
    | none => cp
  let cp := match req.Device with
    | some d => { cp with Device := (Ptr.new S.zeroDevice).store d }
    | none => cp
  let cp := match req.User with
    | some u => { cp with User := (Ptr.new S.zeroUser).store u }
    | none => cp
  let cp := match req.Source with
    | some s => { cp with Source := (Ptr.new S.zeroSource).store s }
    | none => cp
  let cp := match req.Regs with
    | some r => { cp with Regs := (Ptr.new S.zeroRegulations).store r }
    | none => cp
  let cp := match req.Pmp with
    | some p => { cp with Pmp := Pmp.copyFrom p }
    | none => cp
  let cp := { cp with Imp := Slice.copy (Slice.make req.Imp.len S.zeroImpression) req.Imp }
  let cp := { cp with WSeat := Slice.copy (Slice.make req.WSeat.len "") req.WSeat }
  let cp := { cp with BSeat := Slice.copy (Slice.make req.BSeat.len "") req.BSeat }
  let cp := { cp with WLang := Slice.copy (Slice.make req.WLang.len "") req.WLang }
  let cp := { cp with Cur := Slice.copy (Slice.make req.Cur.len "") req.Cur }
  let cp := { cp with Bcat := Slice.copy (Slice.make req.Bcat.len "") req.Bcat }
  let cp := { cp with BAdv := Slice.copy (Slice.make req.BAdv.len "") req.BAdv }
  let cp := { cp with BApp := Slice.copy (Slice.make req.BApp.len "") req.BApp }
  cp

/-! ## Validate -/

/-- The method `(*Impression).Validate`, declared outside `bidrequest.go`.  It has
a pointer receiver, so a call may write to the impression it is called on: the
result is the receiver's value after the call and the returned error (`none` is
a nil error). -/
abbrev ImpValidator (S : Schema) := S.Impression → S.Impression × Option (Error S.OtherError)

/-- Memory that `Validate` can reach: the request behind the receiver `req` and
the loop variable `imp` (unset before the loop is entered). -/
structure ValidateState (S : Schema) where
  req : BidRequest S
  imp : Option S.Impression

/-- The loop of `bidrequest.go:122-126` over the remaining elements of `req.Imp`:
each element is copied into the loop variable, the impression validator runs on
the address of that variable, and the first non-nil error is returned. -/
def BidRequest.validateLoop {S : Schema} (impValidate : ImpValidator S) :
    List S.Impression → ValidateState S → ValidateState S × Option (Error S.OtherError)
  | [], st => (st, none)
  | x :: rest, st =>
    let st := { st with imp := some x }
    let r := impValidate x
    let st := { st with imp := some r.1 }
    match r.2 with
    | some err => (st, some err)
    | none => BidRequest.validateLoop impValidate rest st

/-- The method `(*BidRequest).Validate`, `bidrequest.go:113-129`, with the memory it
leaves behind. -/
def BidRequest.validateExec {S : Schema} (impValidate : ImpValidator S) (req : BidRequest S) :
    ValidateState S × Option (Error S.OtherError) :=
  let st : ValidateState S := { req := req, imp := none }
  if req.ID = "" then
    (st, some Error.ErrInvalidReqNoID)
  else if req.Imp.len = 0 then
    (st, some Error.ErrInvalidReqNoImps)
  else if req.Site.isSome && req.App.isSome then
    (st, some Error.ErrInvalidReqMultiInv)
  else
    BidRequest.validateLoop impValidate st.req.Imp.elems st

/-- The error returned by `(*BidRequest).Validate`; `none` is the nil error. -/
def BidRequest.Validate {S : Schema} (impValidate : ImpValidator S) (req : BidRequest S) :
    Option (Error S.OtherError) :=
  (req.validateExec impValidate).2

/-- Modelled from the spec: the contract of the impression validator
`(*Impression).Validate`, whose code is not in `bidrequest.go`.  The spec says
that it "returns success or a specific, impression-scoped failure reason": an
error it returns is none of the three envelope-level sentinels. -/
def ImpressionScoped {S : Schema} (impValidate : ImpValidator S) : Prop :=
  ∀ x : S.Impression,
    (impValidate x).2 ≠ some Error.ErrInvalidReqNoID
      ∧ (impValidate x).2 ≠ some Error.ErrInvalidReqNoImps
      ∧ (impValidate x).2 ≠ some Error.ErrInvalidReqMultiInv

/-! ## Concrete instances -/

/-- A sample impression type carrying an id, standing in for `Impression`. -/
structure SampleImpression where
  ID : String
  deriving DecidableEq, Repr

/-- A sample instantiation of the external types, used to evaluate the code on
concrete requests. -/
@[reducible] def sampleSchema : Schema :=
  { Impression := SampleImpression
    Site := Unit
    App := Unit
    Device := Unit
    User := Unit
    Source := Unit
    Regulations := Unit
    Extension := List Nat
    Deal := String
    PmpRest := Int
    OtherError := String
    zeroImpression := { ID := "" }
    zeroSite := ()
    zeroApp := ()
    zeroDevice := ()
    zeroUser := ()
    zeroSource := ()
    zeroRegulations := ()
    zeroDeal := ""
    zeroPmpRest := 0 }

/-- A sample impression validator: it rejects an impression without id and leaves
its receiver as it found it. -/
def sampleImpValidate : ImpValidator sampleSchema :=
  fun imp => if imp.ID = "" then (imp, some (Error.other "impression ID missing")) else (imp, none)

/-- A validator that gives two rejected impressions different errors: it tells
which impression's verdict `Validate` returned. -/
def taggingImpValidate : ImpValidator sampleSchema :=
  fun imp =>
    if imp.ID = "" then (imp, some (Error.other "impression ID missing"))
    else if imp.ID = "bad" then (imp, some (Error.other "impression has multiple assets"))
    else (imp, none)

/-- A validator that overwrites the id of the impression it is called on and
accepts it: it shows what a write through the receiver does to the request. -/
def scribblingImpValidate : ImpValidator sampleSchema :=
  fun _ => ({ ID := "overwritten" }, none)

/-- A validator that breaks the contract `ImpressionScoped`: it answers with an
envelope-level sentinel. -/
def unscopedImpValidate : ImpValidator sampleSchema :=
  fun imp => (imp, some Error.ErrInvalidReqNoID)

/-- A sample request with the given id, impressions and inventory sources, every
other field at its zero value. -/
def sampleRequest (id : String) (imps : Slice SampleImpression) (site app : Ptr Unit) :
    BidRequest sampleSchema :=
  { ID := id
    Imp := imps
    Site := site
    App := app
    Device := none
    User := none
    Test := 0
    AuctionType := 0
    TMax := 0
    WSeat := none
    BSeat := none
    WLang := none
    AllImps := 0
    Cur := none
    Bcat := none
    BAdv := none
    BApp := none
    Source := none
    Regs := none
    Ext := []
    Pmp := none }

/-- A sample request with every optional sub-object present, three impressions,
string lists with repeated entries and a pmp block with two deals. -/
def sampleFullRequest : BidRequest sampleSchema :=
  { ID := "abc"
    Imp := some [⟨"1"⟩, ⟨"2"⟩, ⟨"1"⟩]
    Site := some ()
    App := none
    Device := some ()
    User := some ()
    Test := 1
    AuctionType := 2
    TMax := 120
    WSeat := some ["s1", "s2", "s1"]
    BSeat := some ["s3"]
    WLang := some ["en", "de"]
    AllImps := 1
    Cur := some ["USD", "EUR", "USD"]
    Bcat := some ["IAB1"]
    BAdv := some ["example.com"]
    BApp := some []
    Source := some ()
    Regs := some ()
    Ext := [1, 2]
    Pmp := some { Deals := some ["d1", "d2"], rest := 1 } }

/-! ## Copy with the identity of every allocation

The embedding above sees a pointer through its pointee and a slice through its
elements; it cannot tell a fresh allocation from a shared one.  The embedding
of `Copy` below keeps, next to every value, the identity of the cell or backing
array that holds it, and threads the allocator through the method: `next` is
the first identity not yet handed out, and every allocation takes `next` and
moves it on. -/

namespace Mem

/-- Identity of an allocation: the cell behind a pointer or the backing array
of a slice. -/
abbrev Addr := Nat

/-- A non-nil pointer: the cell it points to and the value the cell holds. -/
structure Cell (α : Type) where
  addr : Addr
  val : α
  deriving DecidableEq, Repr

/-- Pointer `*T`: `none` is `nil`. -/
abbrev Ptr (α : Type) := Option (Cell α)

/-- A non-nil slice header: its backing array, its capacity and the `len`
elements it shows. -/
structure View (α : Type) where
  arr : Addr
  cap : Nat
  elems : List α
  deriving DecidableEq, Repr

/-- Slice `[]T`: `none` is the nil slice. -/
abbrev Slice (α : Type) := Option (View α)

/-- Allocation `&T{}`: a pointer to a fresh cell holding the zero value, and the
allocator after it. -/
def Ptr.new {α : Type} (zero : α) (next : Addr) : Ptr α × Addr :=
  (some { addr := next, val := zero }, next + 1)

/-- Assignment `*p = v` through a non-nil pointer `p`. -/
def Ptr.store {α : Type} (p : Ptr α) (v : α) : Ptr α :=
  p.map (fun c => { c with val := v })

/-- The statements `if q != nil { p = &T{}; *p = *q }` for a field `p` that is
nil before them: the new value of `p` and the allocator after them. -/
def Ptr.clone {α : Type} (zero : α) (q : Ptr α) (next : Addr) : Ptr α × Addr :=
  match q with
  | some c => ((Ptr.new zero next).1.store c.val, (Ptr.new zero next).2)
  | none => (none, next)

/-- Builtin `len(s)`. -/
def Slice.len {α : Type} : Slice α → Nat
  | none => 0
  | some v => v.elems.length

/-- Elements visited by `range s`. -/
def Slice.elems {α : Type} : Slice α → List α
  | none => []
  | some v => v.elems

/-- Builtin `make([]T, n)`: a slice of `n` zero values over a fresh backing array
of capacity `n`, and the allocator after it.  For `n = 0` the slice has no
storage to share; it gets an identity of its own all the same. -/
def Slice.make {α : Type} (n : Nat) (zero : α) (next : Addr) : Slice α × Addr :=
  (some { arr := next, cap := n, elems := List.replicate n zero }, next + 1)

/-- Builtin `copy(dst, src)`, returning `dst` with its new contents: the header
is the same, the first `min (len dst) (len src)` elements are those of `src`. -/
def Slice.copy {α : Type} (dst src : Slice α) : Slice α :=
  dst.map (fun d =>
    { d with elems := src.elems.take (min d.elems.length src.len)
                        ++ d.elems.drop (min d.elems.length src.len) })

/-- The statements `dst = make([]T, len(src)); copy(dst, src)`: the new value of
`dst` and the allocator after them. -/
def Slice.clone {α : Type} (zero : α) (src : Slice α) (next : Addr) : Slice α × Addr :=
  (Slice.copy (Slice.make src.len zero next).1 src, (Slice.make src.len zero next).2)

/-- The `Pmp` struct, with a located `Deals` slice. -/
structure Pmp (S : Schema) where
  Deals : Slice S.Deal
  rest : S.PmpRest

/-- Zero value `Pmp{}`. -/
def Pmp.zero (S : Schema) : Pmp S := { Deals := none, rest := S.zeroPmpRest }

/-- The struct `BidRequest` of `bidrequest.go:17-40`, with located pointers and
slices. -/
structure BidRequest (S : Schema) where
  ID : String
  Imp : Slice S.Impression
  Site : Ptr S.Site
  App : Ptr S.App
  Device : Ptr S.Device
  User : Ptr S.User
  Test : Int
  AuctionType : Int
  TMax : Int
  WSeat : Slice String
  BSeat : Slice String
  WLang : Slice String
  AllImps : Int
  Cur : Slice String
  Bcat : Slice String
  BAdv : Slice String
  BApp : Slice String
  Source : Ptr S.Source
  Regs : Ptr S.Regulations
  Ext : S.Extension
  Pmp : Ptr (Pmp S)

/-- The composite literal of `bidrequest.go:43-50`. -/
def BidRequest.copyLiteral {S : Schema} (req : BidRequest S) : BidRequest S :=
  { ID := req.ID
    Imp := none
    Site := none
    App := none
    Device := none
    User := none
    Test := req.Test
    AuctionType := req.AuctionType
    TMax := req.TMax
    WSeat := none
    BSeat := none
    WLang := none
    AllImps := req.AllImps
    Cur := none
    Bcat := none
    BAdv := none
    BApp := none
    Source := none
    Regs := none
    Ext := req.Ext
    Pmp := none }

/-- The body of the `Pmp` branch, `bidrequest.go:77-82`, for a non-nil `req.Pmp`
pointing to the cell `p`: a fresh cell receives the whole struct, `Deals` header
included, and `Deals` is replaced by a slice over a fresh array only when it has
at least one element. -/
def Pmp.copyFrom {S : Schema} (p : Cell (Pmp S)) (next : Addr) : Ptr (Pmp S) × Addr :=
  let q := Ptr.new (Pmp.zero S) next
  let c := q.1.store p.val
  if p.val.Deals.len > 0 then
    let d := Slice.clone S.zeroDeal p.val.Deals q.2
    (c.map (fun x => { x with val := { x.val with Deals := d.1 } }), d.2)
  else
    (c, q.2)

/-- The `Pmp` branch, `bidrequest.go:76-83`. -/
def Pmp.clone {S : Schema} (q : Ptr (Pmp S)) (next : Addr) : Ptr (Pmp S) × Addr :=
  match q with
  | some p => Pmp.copyFrom p next
  | none => (none, next)

/-- The method `(*BidRequest).Copy`, `bidrequest.go:42-110`, run with the allocator
at `next`: the copy and the allocator after the call. -/
def BidRequest.Copy {S : Schema} (req : BidRequest S) (next : Addr) : BidRequest S × Addr :=
  let cp := req.copyLiteral
  let site := Ptr.clone S.zeroSite req.Site next
  let cp := { cp with Site := site.1 }
  let app := Ptr.clone S.zeroApp req.App site.2
  let cp := { cp with App := app.1 }
  let device := Ptr.clone S.zeroDevice req.Device app.2
  let cp := { cp with Device := device.1 }
  let user := Ptr.clone S.zeroUser req.User device.2
  let cp := { cp with User := user.1 }
  let source := Ptr.clone S.zeroSource req.Source user.2
  let cp := { cp with Source := source.1 }
  let regs := Ptr.clone S.zeroRegulations req.Regs source.2
  let cp := { cp with Regs := regs.1 }
  let pmp := Pmp.clone req.Pmp regs.2
  let cp := { cp with Pmp := pmp.1 }
  let imp := Slice.clone S.zeroImpression req.Imp pmp.2
  let cp := { cp with Imp := imp.1 }
  let wseat := Slice.clone "" req.WSeat imp.2
  let cp := { cp with WSeat := wseat.1 }
  let bseat := Slice.clone "" req.BSeat wseat.2
  let cp := { cp with BSeat := bseat.1 }
  let wlang := Slice.clone "" req.WLang bseat.2
  let cp := { cp with WLang := wlang.1 }
  let cur := Slice.clone "" req.Cur wlang.2
  let cp := { cp with Cur := cur.1 }
  let bcat := Slice.clone "" req.Bcat cur.2
  let cp := { cp with Bcat := bcat.1 }
  let badv := Slice.clone "" req.BAdv bcat.2
  let cp := { cp with BAdv := badv.1 }
  let bapp := Slice.clone "" req.BApp badv.2
  let cp := { cp with BApp := bapp.1 }
  (cp, bapp.2)

/-- Allocation a pointer refers to, if any. -/
def Ptr.addrs {α : Type} : Ptr α → List Addr
  | none => []
  | some c => [c.addr]

/-- Backing array a slice refers to, if any. -/
def Slice.addrs {α : Type} : Slice α → List Addr
  | none => []
  | some v => [v.arr]

/-- Storage behind the envelope's own fields: the cells of its seven optional
sub-objects and the backing arrays of its eight sequences. -/
def BidRequest.fieldAddrs {S : Schema} (req : BidRequest S) : List Addr :=
  req.Site.addrs ++ req.App.addrs ++ req.Device.addrs ++ req.User.addrs ++ req.Source.addrs
    ++ req.Regs.addrs ++ req.Pmp.addrs ++ req.Imp.addrs ++ req.WSeat.addrs ++ req.BSeat.addrs
    ++ req.WLang.addrs ++ req.Cur.addrs ++ req.Bcat.addrs ++ req.BAdv.addrs ++ req.BApp.addrs

/-- Backing array of `Pmp.Deals`, if the block is present and the slice non-nil. -/
def BidRequest.dealsAddrs {S : Schema} (req : BidRequest S) : List Addr :=
  match req.Pmp with
  | none => []
  | some p => p.val.Deals.addrs

/-- Storage the method `Copy` deals with: that of the envelope's own fields and
the backing array of `Pmp.Deals`. -/
def BidRequest.addrs {S : Schema} (req : BidRequest S) : List Addr :=
  req.fieldAddrs ++ req.dealsAddrs

/-- Forgetting identities: the pointer seen through its pointee. -/
def Ptr.erase {α : Type} (p : Ptr α) : OpenRTB.Ptr α := p.map (fun c => c.val)

/-- Forgetting identities: the slice seen through its elements. -/
def Slice.erase {α : Type} (s : Slice α) : OpenRTB.Slice α := s.map (fun v => v.elems)

/-- Forgetting identities in a `Pmp` block. -/
def Pmp.erase {S : Schema} (p : Pmp S) : OpenRTB.Pmp S :=
  { Deals := p.Deals.erase, rest := p.rest }

/-- Forgetting identities in a request: the request of the first embedding. -/
def BidRequest.erase {S : Schema} (req : BidRequest S) : OpenRTB.BidRequest S :=
  { ID := req.ID
    Imp := req.Imp.erase
    Site := req.Site.erase
    App := req.App.erase
    Device := req.Device.erase
    User := req.User.erase
    Test := req.Test
    AuctionType := req.AuctionType
    TMax := req.TMax
    WSeat := req.WSeat.erase
    BSeat := req.BSeat.erase
    WLang := req.WLang.erase
    AllImps := req.AllImps
    Cur := req.Cur.erase
    Bcat := req.Bcat.erase
    BAdv := req.BAdv.erase
    BApp := req.BApp.erase
    Source := req.Source.erase
    Regs := req.Regs.erase
    Ext := req.Ext
    Pmp := req.Pmp.map (fun c => c.val.erase) }

/-- A sample request whose pmp block has a non-nil `Deals` of length 0 over an
array of capacity 4, as `make([]Deal, 0, 4)` or `deals[:0]` gives; everything
else is absent.  Its allocations are 1 (the block) and 2 (the array). -/
def emptyDealsRequest : BidRequest sampleSchema :=
  { ID := "abc"
    Imp := none
    Site := none
    App := none
    Device := none
    User := none
    Test := 0
    AuctionType := 0
    TMax := 0
    WSeat := none
    BSeat := none
    WLang := none
    AllImps := 0
    Cur := none
    Bcat := none
    BAdv := none
    BApp := none
    Source := none
    Regs := none
    Ext := []
    Pmp := some { addr := 1, val := { Deals := some { arr := 2, cap := 4, elems := [] }, rest := 0 } } }

/-- A sample request with a site, one impression, a currency list and a pmp block
holding two deals; its allocations are 1 to 5. -/
def dealsRequest : BidRequest sampleSchema :=
  { emptyDealsRequest with
    Imp := some { arr := 3, cap := 1, elems := [⟨"1"⟩] }
    Site := some { addr := 4, val := () }
    Cur := some { arr := 5, cap := 2, elems := ["USD", "EUR"] }
    Pmp := some { addr := 1,
                  val := { Deals := some { arr := 2, cap := 4, elems := ["d1", "d2"] }, rest := 0 } } }

/-- A sample request like `dealsRequest` whose pmp block has been emptied for
reuse: `Deals` is non-nil, of length 0, over the array of capacity 4. -/
def reusedRequest : BidRequest sampleSchema :=
  { dealsRequest with
    Pmp := some { addr := 1, val := { Deals := some { arr := 2, cap := 4, elems := [] }, rest := 0 } } }

end Mem

/-! ## Auxiliary facts -/

/-- The loop never writes to the request behind `req`. -/
theorem validateLoop_req {S : Schema} (impValidate : ImpValidator S) (l : List S.Impression)
    (st : ValidateState S) : (BidRequest.validateLoop impValidate l st).1.req = st.req := by
  induction l generalizing st with
  | nil => rfl
  | cons x rest ih =>
    simp only [BidRequest.validateLoop]
    cases h : (impValidate x).2 with
    | none => simp only [ih]
    | some err => rfl

/-- The error of the loop is the first non-nil verdict of the impression
validator along the list. -/
theorem validateLoop_err {S : Schema} (impValidate : ImpValidator S) (l : List S.Impression)
    (st : ValidateState S) :
    (BidRequest.validateLoop impValidate l st).2 = l.findSome? (fun x => (impValidate x).2) := by
  induction l generalizing st with
  | nil => rfl
  | cons x rest ih =>
    simp only [BidRequest.validateLoop, List.findSome?]
    cases h : (impValidate x).2 with
    | none => simp only [ih]
    | some err => rfl

/-- Past the three envelope checks, `Validate` returns what the loop returns. -/
theorem Validate_past_checks {S : Schema} (impValidate : ImpValidator S) (req : BidRequest S)
    (hid : req.ID ≠ "") (himp : req.Imp.len ≠ 0)
    (hinv : ¬ (req.Site.isSome = true ∧ req.App.isSome = true)) :
    req.Validate impValidate = req.Imp.elems.findSome? (fun x => (impValidate x).2) := by
  have hb : (req.Site.isSome && req.App.isSome) = false := by
    cases hs : req.Site.isSome <;> cases ha : req.App.isSome <;> simp_all
  simp only [BidRequest.Validate, BidRequest.validateExec, if_neg hid, if_neg himp, hb,
    Bool.false_eq_true, if_false, validateLoop_err]

/-- An error found by `findSome?` is the verdict on some element of the list. -/
theorem findSome_verdict {α β : Type} (f : α → Option β) (l : List α) (b : β)
    (h : l.findSome? f = some b) : ∃ x ∈ l, f x = some b := by
  induction l with
  | nil => simp [List.findSome?] at h
  | cons x rest ih =>
    simp only [List.findSome?] at h
    cases hx : f x with
    | none =>
      rw [hx] at h
      obtain ⟨y, hy, hfy⟩ := ih h
      exact ⟨y, List.mem_cons_of_mem _ hy, hfy⟩
    | some c =>
      rw [hx] at h
      exact ⟨x, List.mem_cons_self _ _, by rw [hx]; exact h⟩

/-- With accepted elements in front, `findSome?` returns the verdict on the first
rejected one. -/
theorem findSome_first {α β : Type} (f : α → Option β) (pre post : List α) (x : α) (b : β)
    (hpre : ∀ y ∈ pre, f y = none) (hx : f x = some b) :
    (pre ++ x :: post).findSome? f = some b := by
  induction pre with
  | nil => simp [List.findSome?, hx]
  | cons y rest ih =>
    have hy : f y = none := hpre y (List.mem_cons_self _ _)
    simp only [List.cons_append, List.findSome?, hy]
    exact ih (fun z hz => hpre z (List.mem_cons_of_mem _ hz))

/-- When every element is accepted, `findSome?` finds nothing. -/
theorem findSome_none {α β : Type} (f : α → Option β) (l : List α)
    (h : ∀ y ∈ l, f y = none) : l.findSome? f = none := by
  induction l with
  | nil => rfl
  | cons y rest ih =>
    have hy : f y = none := h y (List.mem_cons_self _ _)
    simp only [List.findSome?, hy]
    exact ih (fun z hz => h z (List.mem_cons_of_mem _ hz))

/-! ## Validate: the envelope checks -/

/-- C1: a request whose id is the empty string is rejected with
`ErrInvalidReqNoID`, whatever its other fields are and whatever the impression
validator says about its impressions. -/
theorem Validate_missing_id {S : Schema} (impValidate : ImpValidator S) (req : BidRequest S)
    (hid : req.ID = "") : req.Validate impValidate = some Error.ErrInvalidReqNoID := by
  simp only [BidRequest.Validate, BidRequest.validateExec, if_pos hid]

/-- C1 at concrete requests without id: with no impressions, with both site and
app present, and with an impression the sample validator rejects. -/
theorem Validate_missing_id_witness :
    ((sampleRequest "" none none none).ID = ""
        ∧ (sampleRequest "" none none none).Validate sampleImpValidate
          = some Error.ErrInvalidReqNoID)
      ∧ ((sampleRequest "" (some [⟨"1"⟩]) (some ()) (some ())).ID = ""
        ∧ (sampleRequest "" (some [⟨"1"⟩]) (some ()) (some ())).Validate sampleImpValidate
          = some Error.ErrInvalidReqNoID)
      ∧ ((sampleImpValidate ⟨""⟩).2 ≠ none
        ∧ (sampleRequest "" (some [⟨""⟩]) none none).Validate sampleImpValidate
          = some Error.ErrInvalidReqNoID) :=
  ⟨⟨rfl, Validate_missing_id sampleImpValidate _ rfl⟩,
   ⟨rfl, Validate_missing_id sampleImpValidate _ rfl⟩,
   ⟨by decide, Validate_missing_id sampleImpValidate _ rfl⟩⟩

/-- C2: a request with a non-empty id and an empty impressions slice (nil or of
length zero) is rejected with `ErrInvalidReqNoImps`, whether or not site and app
are both present. -/
theorem Validate_no_impressions {S : Schema} (impValidate : ImpValidator S)
    (req : BidRequest S) (hid : req.ID ≠ "") (himp : req.Imp.len = 0) :
    req.Validate impValidate = some Error.ErrInvalidReqNoImps := by
  simp only [BidRequest.Validate, BidRequest.validateExec, if_neg hid, if_pos himp]

/-- C2 at concrete requests: a nil impressions slice with both inventory sources
present, and an empty non-nil one with neither. -/
theorem Validate_no_impressions_witness :
    ((sampleRequest "abc" none (some ()) (some ())).ID ≠ ""
        ∧ (sampleRequest "abc" none (some ()) (some ())).Imp.len = 0
        ∧ (sampleRequest "abc" none (some ()) (some ())).Validate sampleImpValidate
          = some Error.ErrInvalidReqNoImps)
      ∧ ((sampleRequest "abc" (some []) none none).ID ≠ ""
        ∧ (sampleRequest "abc" (some []) none none).Imp.len = 0
        ∧ (sampleRequest "abc" (some []) none none).Validate sampleImpValidate
          = some Error.ErrInvalidReqNoImps) :=
  ⟨⟨by decide, rfl, Validate_no_impressions sampleImpValidate _ (by decide) rfl⟩,
   ⟨by decide, rfl, Validate_no_impressions sampleImpValidate _ (by decide) rfl⟩⟩

/-- C3: a request with a non-empty id, at least one impression and both site and
app present is rejected with `ErrInvalidReqMultiInv`; the impression validator
is not consulted, so its verdicts do not matter. -/
theorem Validate_multiple_inventory {S : Schema} (impValidate : ImpValidator S)
    (req : BidRequest S) (hid : req.ID ≠ "") (himp : req.Imp.len ≠ 0)
    (hsite : req.Site.isSome = true) (happ : req.App.isSome = true) :
    req.Validate impValidate = some Error.ErrInvalidReqMultiInv := by
  simp only [BidRequest.Validate, BidRequest.validateExec, if_neg hid, if_neg himp, hsite, happ,
    Bool.and_self, if_true]

/-- C3 at a concrete request whose first impression the sample validator
rejects: the result is still `ErrInvalidReqMultiInv`. -/
theorem Validate_multiple_inventory_witness :
    (sampleImpValidate ⟨""⟩).2 = some (Error.other "impression ID missing")
      ∧ (sampleRequest "abc" (some [⟨""⟩, ⟨"1"⟩]) (some ()) (some ())).ID ≠ ""
      ∧ (sampleRequest "abc" (some [⟨""⟩, ⟨"1"⟩]) (some ()) (some ())).Imp.len ≠ 0
      ∧ (sampleRequest "abc" (some [⟨""⟩, ⟨"1"⟩]) (some ()) (some ())).Validate sampleImpValidate
        = some Error.ErrInvalidReqMultiInv :=
  ⟨rfl, by decide, by decide,
   Validate_multiple_inventory sampleImpValidate _ (by decide) (by decide) rfl rfl⟩

/-! ## Validate: the impressions -/

/-- A list with a rejected element splits at its first rejected element. -/
theorem exists_first_rejected {α β : Type} (f : α → Option β) (l : List α)
    (h : ∃ y ∈ l, f y ≠ none) :
    ∃ pre x post b, l = pre ++ x :: post ∧ (∀ y ∈ pre, f y = none) ∧ f x = some b := by
  induction l with
  | nil =>
    obtain ⟨y, hy, _⟩ := h
    simp at hy
  | cons z rest ih =>
    cases hz : f z with
    | some b => exact ⟨[], z, rest, b, rfl, by simp, hz⟩
    | none =>
      have hrest : ∃ y ∈ rest, f y ≠ none := by
        obtain ⟨y, hy, hfy⟩ := h
        rcases List.mem_cons.mp hy with rfl | hmem
        · exact absurd hz hfy
        · exact ⟨y, hmem, hfy⟩
      obtain ⟨pre, x, post, b, hsplit, hpre, hx⟩ := ih hrest
      refine ⟨z :: pre, x, post, b, by rw [hsplit]; rfl, ?_, hx⟩
      intro y hy
      rcases List.mem_cons.mp hy with rfl | hmem
      · exact hz
      · exact hpre y hmem

/-- C4: for a request that passes the three envelope checks and has a rejected
impression, there is a first rejected impression, and `Validate` returns exactly
the error the impression validator gives for it, whatever the impressions after
it are. -/
theorem Validate_first_rejected {S : Schema} (impValidate : ImpValidator S)
    (req : BidRequest S) (hid : req.ID ≠ "") (himp : req.Imp.len ≠ 0)
    (hinv : ¬ (req.Site.isSome = true ∧ req.App.isSome = true))
    (hrej : ∃ y ∈ req.Imp.elems, (impValidate y).2 ≠ none) :
    (∃ pre x post e, req.Imp.elems = pre ++ x :: post
        ∧ (∀ y ∈ pre, (impValidate y).2 = none) ∧ (impValidate x).2 = some e)
      ∧ ∀ pre x post e, req.Imp.elems = pre ++ x :: post →
          (∀ y ∈ pre, (impValidate y).2 = none) → (impValidate x).2 = some e →
          req.Validate impValidate = some e := by
  refine ⟨exists_first_rejected (fun x => (impValidate x).2) _ hrej, ?_⟩
  intro pre x post e hsplit hpre hx
  rw [Validate_past_checks impValidate req hid himp hinv, hsplit]
  exact findSome_first (fun x => (impValidate x).2) pre post x e hpre hx

/-- C4 at a concrete request: impressions `1`, `bad`, blank; the second is the
first rejected one and its error is returned, not the third one's. -/
theorem Validate_first_rejected_witness :
    (taggingImpValidate ⟨""⟩).2 = some (Error.other "impression ID missing")
      ∧ (sampleRequest "abc" (some [⟨"1"⟩, ⟨"bad"⟩, ⟨""⟩]) (some ()) none).Validate
          taggingImpValidate = some (Error.other "impression has multiple assets") :=
  ⟨by decide,
   (Validate_first_rejected taggingImpValidate
      (sampleRequest "abc" (some [⟨"1"⟩, ⟨"bad"⟩, ⟨""⟩]) (some ()) none)
      (by decide) (by decide) (by decide)
      ⟨⟨"bad"⟩, by decide, by decide⟩).2
      [⟨"1"⟩] ⟨"bad"⟩ [⟨""⟩] _ rfl (by decide) (by decide)⟩

/-! ## Validate: success -/

/-- C5: when `Validate` returns no error, the id is non-empty, there is at least
one impression, and site and app are not both present. -/
theorem Validate_ok_envelope {S : Schema} (impValidate : ImpValidator S) (req : BidRequest S)
    (hok : req.Validate impValidate = none) :
    req.ID ≠ "" ∧ req.Imp.len ≠ 0 ∧ ¬ (req.Site.isSome = true ∧ req.App.isSome = true) := by
  by_cases hid : req.ID = ""
  · simp [BidRequest.Validate, BidRequest.validateExec, hid] at hok
  · by_cases himp : req.Imp.len = 0
    · simp [BidRequest.Validate, BidRequest.validateExec, hid, himp] at hok
    · refine ⟨hid, himp, ?_⟩
      rintro ⟨hsite, happ⟩
      simp [BidRequest.Validate, BidRequest.validateExec, hid, himp, hsite, happ] at hok

/-- C5 at a concrete accepted request. -/
theorem Validate_ok_envelope_witness :
    (sampleRequest "abc" (some [⟨"1"⟩]) none (some ())).Validate sampleImpValidate = none
      ∧ (sampleRequest "abc" (some [⟨"1"⟩]) none (some ())).ID ≠ ""
      ∧ (sampleRequest "abc" (some [⟨"1"⟩]) none (some ())).Imp.len ≠ 0
      ∧ ¬ ((sampleRequest "abc" (some [⟨"1"⟩]) none (some ())).Site.isSome = true
          ∧ (sampleRequest "abc" (some [⟨"1"⟩]) none (some ())).App.isSome = true) :=
  ⟨by decide, Validate_ok_envelope sampleImpValidate _ (by decide)⟩

/-- C6: a request with a non-empty id, at least one impression, every impression
accepted by the impression validator, and site and app not both present, is
accepted: `Validate` returns no error. -/
theorem Validate_ok {S : Schema} (impValidate : ImpValidator S) (req : BidRequest S)
    (hid : req.ID ≠ "") (himp : req.Imp.len ≠ 0)
    (hall : ∀ x ∈ req.Imp.elems, (impValidate x).2 = none)
    (hinv : ¬ (req.Site.isSome = true ∧ req.App.isSome = true)) :
    req.Validate impValidate = none := by
  rw [Validate_past_checks impValidate req hid himp hinv]
  exact findSome_none (fun x => (impValidate x).2) _ hall

/-- C6 at the minimal request with id `abc` and one impression with id `1`,
which the sample validator accepts; also with a site alone. -/
theorem Validate_ok_witness :
    (sampleImpValidate ⟨"1"⟩).2 = none
      ∧ (sampleRequest "abc" (some [⟨"1"⟩]) none none).Validate sampleImpValidate = none
      ∧ (sampleRequest "abc" (some [⟨"1"⟩]) (some ()) none).Validate sampleImpValidate = none :=
  ⟨by decide,
   Validate_ok sampleImpValidate _ (by decide) (by decide) (by decide) (by decide),
   Validate_ok sampleImpValidate _ (by decide) (by decide) (by decide) (by decide)⟩

/-! ## Validate: what an error says about the request -/

/-- C7: with an impression validator that keeps its contract (its errors are
impression-scoped), each envelope-level error of `Validate` has one structural
cause: `ErrInvalidReqNoID` means the id is empty, `ErrInvalidReqNoImps` means
there is no impression, `ErrInvalidReqMultiInv` means site and app are both
present. -/
theorem Validate_error_cause {S : Schema} (impValidate : ImpValidator S)
    (hscoped : ImpressionScoped impValidate) (req : BidRequest S) :
    (req.Validate impValidate = some Error.ErrInvalidReqNoID → req.ID = "")
      ∧ (req.Validate impValidate = some Error.ErrInvalidReqNoImps → req.Imp.len = 0)
      ∧ (req.Validate impValidate = some Error.ErrInvalidReqMultiInv →
          req.Site.isSome = true ∧ req.App.isSome = true) := by
  by_cases hid : req.ID = ""
  · have hres : req.Validate impValidate = some Error.ErrInvalidReqNoID := by
      simp only [BidRequest.Validate, BidRequest.validateExec, if_pos hid]
    rw [hres]
    exact ⟨fun _ => hid, fun h => (by cases h), fun h => (by cases h)⟩
  · by_cases himp : req.Imp.len = 0
    · have hres : req.Validate impValidate = some Error.ErrInvalidReqNoImps := by
        simp only [BidRequest.Validate, BidRequest.validateExec, if_neg hid, if_pos himp]
      rw [hres]
      exact ⟨fun h => (by cases h), fun _ => himp, fun h => (by cases h)⟩
    · by_cases hinv : req.Site.isSome = true ∧ req.App.isSome = true
      · have hres : req.Validate impValidate = some Error.ErrInvalidReqMultiInv := by
          simp only [BidRequest.Validate, BidRequest.validateExec, if_neg hid, if_neg himp,
            hinv.1, hinv.2, Bool.and_self, if_true]
        rw [hres]
        exact ⟨fun h => (by cases h), fun h => (by cases h), fun _ => hinv⟩
      · rw [Validate_past_checks impValidate req hid himp hinv]
        refine ⟨fun h => ?_, fun h => ?_, fun h => ?_⟩
        · obtain ⟨x, _, hx⟩ := findSome_verdict _ _ _ h
          exact absurd hx (hscoped x).1
        · obtain ⟨x, _, hx⟩ := findSome_verdict _ _ _ h
          exact absurd hx (hscoped x).2.1
        · obtain ⟨x, _, hx⟩ := findSome_verdict _ _ _ h
          exact absurd hx (hscoped x).2.2

/-- The sample validator keeps the contract: its only error is its own. -/
theorem sampleImpValidate_scoped : ImpressionScoped sampleImpValidate := by
  intro x
  unfold sampleImpValidate
  split <;> simp

/-- The contract is needed: a validator answering with `ErrInvalidReqNoID` makes
`Validate` return that sentinel for a request that has an id. -/
theorem Validate_unscoped_validator :
    (sampleRequest "abc" (some [⟨"1"⟩]) none none).Validate unscopedImpValidate
      = some Error.ErrInvalidReqNoID := by
  decide

/-- C7 at concrete requests, one per envelope-level error, with the sample
validator, which keeps the contract: each error comes with its cause. -/
theorem Validate_error_cause_witness :
    ImpressionScoped sampleImpValidate
      ∧ ((sampleRequest "" (some [⟨"1"⟩]) none none).Validate sampleImpValidate
            = some Error.ErrInvalidReqNoID
          ∧ (sampleRequest "" (some [⟨"1"⟩]) none none).ID = "")
      ∧ ((sampleRequest "abc" (some []) none none).Validate sampleImpValidate
            = some Error.ErrInvalidReqNoImps
          ∧ (sampleRequest "abc" (some []) none none).Imp.len = 0)
      ∧ ((sampleRequest "abc" (some [⟨"1"⟩]) (some ()) (some ())).Validate sampleImpValidate
            = some Error.ErrInvalidReqMultiInv
          ∧ (sampleRequest "abc" (some [⟨"1"⟩]) (some ()) (some ())).Site.isSome = true
          ∧ (sampleRequest "abc" (some [⟨"1"⟩]) (some ()) (some ())).App.isSome = true) :=
  ⟨sampleImpValidate_scoped,
   ⟨by decide,
    (Validate_error_cause sampleImpValidate sampleImpValidate_scoped _).1 (by decide)⟩,
   ⟨by decide,
    (Validate_error_cause sampleImpValidate sampleImpValidate_scoped _).2.1 (by decide)⟩,
   ⟨by decide,
    (Validate_error_cause sampleImpValidate sampleImpValidate_scoped _).2.2 (by decide)⟩⟩

/-! ## Validate: what it reads and what it writes -/

/-- C8: two requests that agree on the id, on the impressions, on whether a site
is present and on whether an app is present get the same result from `Validate`,
whatever their other fields are. -/
theorem Validate_reads_only {S : Schema} (impValidate : ImpValidator S)
    (req₁ req₂ : BidRequest S) (hID : req₁.ID = req₂.ID) (hImp : req₁.Imp = req₂.Imp)
    (hSite : req₁.Site.isSome = req₂.Site.isSome) (hApp : req₁.App.isSome = req₂.App.isSome) :
    req₁.Validate impValidate = req₂.Validate impValidate := by
  simp only [BidRequest.Validate, BidRequest.validateExec, hID, hImp, hSite, hApp]
  by_cases hid : req₂.ID = ""
  · simp only [if_pos hid]
  · by_cases himp : req₂.Imp.len = 0
    · simp only [if_neg hid, if_pos himp]
    · cases hb : (req₂.Site.isSome && req₂.App.isSome)
      · simp only [if_neg hid, if_neg himp, Bool.false_eq_true, if_false, validateLoop_err]
      · simp only [if_neg hid, if_neg himp, if_true]

/-- C8 at two concrete requests that differ in auction type, test flag, tmax,
allimps, the seven string lists, device, user, source, regulations, extension
and pmp, and in the site itself being the same present value. -/
theorem Validate_reads_only_witness :
    (sampleRequest "abc" (some [⟨"1"⟩, ⟨""⟩]) (some ()) none).Validate sampleImpValidate
      = ({ sampleRequest "abc" (some [⟨"1"⟩, ⟨""⟩]) (some ()) none with
            Device := some (), User := some (), Test := 1, AuctionType := 501, TMax := 120,
            WSeat := some ["s1"], BSeat := some ["s2"], WLang := some ["en"], AllImps := 1,
            Cur := some ["USD"], Bcat := some ["IAB1"], BAdv := some ["example.com"],
            BApp := some ["com.foo.mygame"], Source := some (), Regs := some (), Ext := [7],
            Pmp := some { Deals := some ["deal"], rest := 1 } } :
          BidRequest sampleSchema).Validate sampleImpValidate :=
  Validate_reads_only sampleImpValidate _ _ rfl rfl rfl rfl

/-- C9: `Validate` leaves the request as it found it, whether it returns an error
or not: the impression validator works on the loop variable, a copy of the
element, so even a validator that writes through its receiver changes no
element of `Imp`. -/
theorem Validate_frame {S : Schema} (impValidate : ImpValidator S) (req : BidRequest S) :
    (req.validateExec impValidate).1.req = req := by
  simp only [BidRequest.validateExec]
  split
  · rfl
  · split
    · rfl
    · split
      · rfl
      · exact validateLoop_req impValidate _ _

/-- C9 at a concrete request, with a validator that overwrites the impression it
is called on: the loop variable ends up overwritten, the request does not. -/
theorem Validate_frame_witness :
    ((sampleRequest "abc" (some [⟨"1"⟩, ⟨"2"⟩]) none none).validateExec
        scribblingImpValidate).1.imp = some ⟨"overwritten"⟩
      ∧ ((sampleRequest "abc" (some [⟨"1"⟩, ⟨"2"⟩]) none none).validateExec
          scribblingImpValidate).1.req
        = sampleRequest "abc" (some [⟨"1"⟩, ⟨"2"⟩]) none none :=
  ⟨by decide, Validate_frame scribblingImpValidate _⟩

/-! ## Copy: scalar fields -/

/-- C10: `Copy` keeps the id, the test flag, the auction type, tmax, the allimps
flag and the extension payload of the request. -/
theorem Copy_scalars {S : Schema} (req : BidRequest S) :
    req.Copy.ID = req.ID ∧ req.Copy.Test = req.Test ∧ req.Copy.AuctionType = req.AuctionType
      ∧ req.Copy.TMax = req.TMax ∧ req.Copy.AllImps = req.AllImps ∧ req.Copy.Ext = req.Ext := by
  unfold BidRequest.Copy
  cases req.Site <;> cases req.App <;> cases req.Device <;> cases req.User <;>
    cases req.Source <;> cases req.Regs <;> cases req.Pmp <;>
    exact ⟨rfl, rfl, rfl, rfl, rfl, rfl⟩

/-! ## Copy: auxiliary facts -/

/-- The length of a slice is the number of elements `range` visits. -/
theorem Slice.len_eq_length {α : Type} (s : Slice α) : s.len = s.elems.length := by
  cases s <;> rfl

/-- The pattern `dst = make([]T, len(src)); copy(dst, src)` leaves `dst` a non-nil
slice holding exactly the elements of `src`. -/
theorem Slice.copy_make {α : Type} (s : Slice α) (zero : α) :
    Slice.copy (Slice.make s.len zero) s = some s.elems := by
  cases s with
  | none => simp [Slice.copy, Slice.make, Slice.len, Slice.elems]
  | some l => simp [Slice.copy, Slice.make, Slice.len, Slice.elems]

/-- The `Pmp` branch yields a block with the same field values as the original. -/
theorem Pmp.copyFrom_eq {S : Schema} (p : Pmp S) : Pmp.copyFrom p = some p := by
  unfold Pmp.copyFrom
  split
  · simp only [Slice.copy_make, Ptr.new, Ptr.store, Option.map_some']
    rcases p with ⟨deals, rest⟩
    cases deals with
    | none => simp [Slice.len] at *
    | some l => rfl
  · rfl

/-- The value of `Copy`, field by field. -/
theorem Copy_eq {S : Schema} (req : BidRequest S) :
    req.Copy =
      { ID := req.ID
        Imp := some req.Imp.elems
        Site := req.Site
        App := req.App
        Device := req.Device
        User := req.User
        Test := req.Test
        AuctionType := req.AuctionType
        TMax := req.TMax
        WSeat := some req.WSeat.elems
        BSeat := some req.BSeat.elems
        WLang := some req.WLang.elems
        AllImps := req.AllImps
        Cur := some req.Cur.elems
        Bcat := some req.Bcat.elems
        BAdv := some req.BAdv.elems
        BApp := some req.BApp.elems
        Source := req.Source
        Regs := req.Regs
        Ext := req.Ext
        Pmp := req.Pmp } := by
  rcases req with ⟨id, imp, site, app, device, user, test, auctionType, tmax, wseat, bseat, wlang,
    allimps, cur, bcat, badv, bapp, source, regs, ext, pmp⟩
  cases site <;> cases app <;> cases device <;> cases user <;>
    cases source <;> cases regs <;> cases pmp <;>
    simp only [BidRequest.Copy, Slice.copy_make, Pmp.copyFrom_eq, Ptr.new, Ptr.store,
      Option.map_some', BidRequest.copyLiteral]

/-- The result of `Validate` is settled by the id, the elements of `Imp` and the
presence of `Site` and `App`. -/
theorem Validate_congr {S : Schema} (impValidate : ImpValidator S) (req₁ req₂ : BidRequest S)
    (hID : req₁.ID = req₂.ID) (hImp : req₁.Imp.elems = req₂.Imp.elems)
    (hSite : req₁.Site.isSome = req₂.Site.isSome) (hApp : req₁.App.isSome = req₂.App.isSome) :
    req₁.Validate impValidate = req₂.Validate impValidate := by
  simp only [BidRequest.Validate, BidRequest.validateExec, Slice.len_eq_length, hID, hImp, hSite,
    hApp]
  by_cases hid : req₂.ID = ""
  · simp only [if_pos hid]
  · by_cases himp : req₂.Imp.elems.length = 0
    · simp only [if_neg hid, if_pos himp]
    · cases hb : (req₂.Site.isSome && req₂.App.isSome)
      · simp only [if_neg hid, if_neg himp, Bool.false_eq_true, if_false, validateLoop_err, hImp]
      · simp only [if_neg hid, if_neg himp, if_true]

/-! ## Copy: sub-objects and sequences -/

/-- C11: each of the seven optional sub-objects (site, app, device, user, source,
regulations, pmp) is absent in the copy exactly when it is absent in the
request, and when present it holds the same field values. -/
theorem Copy_subobjects {S : Schema} (req : BidRequest S) :
    req.Copy.Site = req.Site ∧ req.Copy.App = req.App ∧ req.Copy.Device = req.Device
      ∧ req.Copy.User = req.User ∧ req.Copy.Source = req.Source ∧ req.Copy.Regs = req.Regs
      ∧ req.Copy.Pmp = req.Pmp := by
  rw [Copy_eq]
  exact ⟨rfl, rfl, rfl, rfl, rfl, rfl, rfl⟩

/-- C11 at a request with no optional sub-object: the copy has none either; and
at the full sample request, whose pmp block keeps its two deals. -/
theorem Copy_subobjects_witness :
    ((sampleRequest "abc" none none none).Copy.Site = none
        ∧ (sampleRequest "abc" none none none).Copy.App = none
        ∧ (sampleRequest "abc" none none none).Copy.Device = none
        ∧ (sampleRequest "abc" none none none).Copy.User = none
        ∧ (sampleRequest "abc" none none none).Copy.Source = none
        ∧ (sampleRequest "abc" none none none).Copy.Regs = none
        ∧ (sampleRequest "abc" none none none).Copy.Pmp = none)
      ∧ sampleFullRequest.Copy.Pmp = some { Deals := some ["d1", "d2"], rest := 1 } :=
  ⟨Copy_subobjects (sampleRequest "abc" none none none), (Copy_subobjects sampleFullRequest).2.2.2.2.2.2⟩

/-- C12: the impressions of the copy are a non-nil slice of the same length as the
request's, with the same impression at every index; for a request without
impressions (nil or empty) it is the empty non-nil slice. -/
theorem Copy_impressions {S : Schema} (req : BidRequest S) :
    req.Copy.Imp.isSome = true ∧ req.Copy.Imp.len = req.Imp.len
      ∧ (∀ i : Nat, req.Copy.Imp.elems.get? i = req.Imp.elems.get? i)
      ∧ (req.Imp.len = 0 → req.Copy.Imp = some []) := by
  rw [Copy_eq]
  refine ⟨rfl, ?_, fun _ => rfl, ?_⟩
  · simp only [Slice.len_eq_length, Slice.elems]
  · intro h
    rw [Slice.len_eq_length] at h
    simp only [List.length_eq_zero.mp h]

/-- C12 at a request whose impressions slice is nil. -/
theorem Copy_impressions_witness :
    (sampleRequest "abc" none none none).Imp.len = 0
      ∧ (sampleRequest "abc" none none none).Copy.Imp = some [] :=
  ⟨rfl, (Copy_impressions (sampleRequest "abc" none none none)).2.2.2 rfl⟩

/-- C13: each of the seven string lists (wseat, bseat, wlang, cur, bcat, badv,
bapp) holds in the copy the same strings as in the request, as many of them and
in the same order, repeated entries included. -/
theorem Copy_string_lists {S : Schema} (req : BidRequest S) :
    (req.Copy.WSeat.elems = req.WSeat.elems ∧ req.Copy.WSeat.len = req.WSeat.len)
      ∧ (req.Copy.BSeat.elems = req.BSeat.elems ∧ req.Copy.BSeat.len = req.BSeat.len)
      ∧ (req.Copy.WLang.elems = req.WLang.elems ∧ req.Copy.WLang.len = req.WLang.len)
      ∧ (req.Copy.Cur.elems = req.Cur.elems ∧ req.Copy.Cur.len = req.Cur.len)
      ∧ (req.Copy.Bcat.elems = req.Bcat.elems ∧ req.Copy.Bcat.len = req.Bcat.len)
      ∧ (req.Copy.BAdv.elems = req.BAdv.elems ∧ req.Copy.BAdv.len = req.BAdv.len)
      ∧ (req.Copy.BApp.elems = req.BApp.elems ∧ req.Copy.BApp.len = req.BApp.len) := by
  rw [Copy_eq]
  simp only [Slice.len_eq_length, Slice.elems, and_self]

/-- C13 at the full sample request, whose wseat and cur repeat an entry. -/
theorem Copy_string_lists_witness :
    sampleFullRequest.Copy.WSeat.elems = ["s1", "s2", "s1"]
      ∧ sampleFullRequest.Copy.Cur.elems = ["USD", "EUR", "USD"] :=
  ⟨(Copy_string_lists sampleFullRequest).1.1, (Copy_string_lists sampleFullRequest).2.2.2.1.1⟩

/-- C14: a string list that is nil in the request is a non-nil empty slice in the
copy; this holds for each of wseat, bseat, wlang, cur, bcat, badv and bapp. -/
theorem Copy_nil_string_lists {S : Schema} (req : BidRequest S) :
    (req.WSeat = none → req.Copy.WSeat = some [])
      ∧ (req.BSeat = none → req.Copy.BSeat = some [])
      ∧ (req.WLang = none → req.Copy.WLang = some [])
      ∧ (req.Cur = none → req.Copy.Cur = some [])
      ∧ (req.Bcat = none → req.Copy.Bcat = some [])
      ∧ (req.BAdv = none → req.Copy.BAdv = some [])
      ∧ (req.BApp = none → req.Copy.BApp = some []) := by
  rw [Copy_eq]
  refine ⟨?_, ?_, ?_, ?_, ?_, ?_, ?_⟩ <;> · intro h; simp only [h, Slice.elems]

/-- C14 at a request with every string list nil. -/
theorem Copy_nil_string_lists_witness :
    (sampleRequest "abc" none none none).WSeat = none
      ∧ (sampleRequest "abc" none none none).Copy.WSeat = some []
      ∧ (sampleRequest "abc" none none none).BApp = none
      ∧ (sampleRequest "abc" none none none).Copy.BApp = some [] :=
  ⟨rfl, (Copy_nil_string_lists (sampleRequest "abc" none none none)).1 rfl,
   rfl, (Copy_nil_string_lists (sampleRequest "abc" none none none)).2.2.2.2.2.2 rfl⟩

/-! ## Copy and Validate; Copy twice -/

/-- C17: for any impression validator, `Validate` gives the copy the verdict it
gives the request: the same error, or no error for both. -/
theorem Validate_Copy {S : Schema} (impValidate : ImpValidator S) (req : BidRequest S) :
    req.Copy.Validate impValidate = req.Validate impValidate := by
  apply Validate_congr <;> rw [Copy_eq]
  rfl

/-- C17 at concrete requests: one rejected for its nil impressions, whose copy has
an empty non-nil slice instead, one rejected for an impression, one accepted. -/
theorem Validate_Copy_witness :
    ((sampleRequest "abc" none none none).Copy.Validate sampleImpValidate
          = some Error.ErrInvalidReqNoImps
        ∧ (sampleRequest "abc" none none none).Validate sampleImpValidate
          = some Error.ErrInvalidReqNoImps)
      ∧ (sampleRequest "abc" (some [⟨"1"⟩, ⟨""⟩]) none none).Copy.Validate sampleImpValidate
          = some (Error.other "impression ID missing")
      ∧ sampleFullRequest.Copy.Validate sampleImpValidate = none :=
  ⟨⟨(Validate_Copy sampleImpValidate _).trans (by decide), by decide⟩,
   (Validate_Copy sampleImpValidate _).trans (by decide),
   (Validate_Copy sampleImpValidate _).trans (by decide)⟩

/-- C18: copying a copy gives a request equal to the copy, field for field; the
copy itself differs from the request as soon as one of the request's eight
sequence fields is nil. -/
theorem Copy_idempotent {S : Schema} (req : BidRequest S) :
    req.Copy.Copy = req.Copy
      ∧ ((req.Imp = none ∨ req.WSeat = none ∨ req.BSeat = none ∨ req.WLang = none
            ∨ req.Cur = none ∨ req.Bcat = none ∨ req.BAdv = none ∨ req.BApp = none) →
          req.Copy ≠ req) := by
  constructor
  · rw [Copy_eq req.Copy, Copy_eq req]
    rfl
  · intro hnil heq
    rw [Copy_eq] at heq
    rcases hnil with h | h | h | h | h | h | h | h
    · have := congrArg BidRequest.Imp heq
      rw [h] at this
      cases this
    · have := congrArg BidRequest.WSeat heq
      rw [h] at this
      cases this
    · have := congrArg BidRequest.BSeat heq
      rw [h] at this
      cases this
    · have := congrArg BidRequest.WLang heq
      rw [h] at this
      cases this
    · have := congrArg BidRequest.Cur heq
      rw [h] at this
      cases this
    · have := congrArg BidRequest.Bcat heq
      rw [h] at this
      cases this
    · have := congrArg BidRequest.BAdv heq
      rw [h] at this
      cases this
    · have := congrArg BidRequest.BApp heq
      rw [h] at this
      cases this

/-- C18 at the full sample request with its cur list made nil: the copy differs
from the request, the copy of the copy does not differ from the copy. -/
theorem Copy_idempotent_witness :
    ({ sampleFullRequest with Cur := none } : BidRequest sampleSchema).Copy.Copy
        = ({ sampleFullRequest with Cur := none } : BidRequest sampleSchema).Copy
      ∧ ({ sampleFullRequest with Cur := none } : BidRequest sampleSchema).Copy
        ≠ ({ sampleFullRequest with Cur := none } : BidRequest sampleSchema) :=
  ⟨(Copy_idempotent _).1,
   (Copy_idempotent _).2 (Or.inr (Or.inr (Or.inr (Or.inr (Or.inl rfl)))))⟩

/-! ## Copy: what is allocated and what is shared -/

namespace Mem

/-- Cloning a pointer moves the allocator forward only, and a pointer it yields
refers to an allocation made by the clone. -/
theorem ptr_clone_fresh {α : Type} (zero : α) (q : Ptr α) (n : Addr) :
    n ≤ (Ptr.clone zero q n).2 ∧ ∀ a ∈ (Ptr.clone zero q n).1.addrs, n ≤ a := by
  cases q with
  | none => simp [Ptr.clone, Ptr.addrs]
  | some c => simp [Ptr.clone, Ptr.new, Ptr.store, Ptr.addrs]

/-- Cloning a slice yields a slice over the array allocated by the clone, with
the length of the source as capacity and the elements of the source. -/
theorem slice_clone_eq {α : Type} (zero : α) (src : Slice α) (n : Addr) :
    Slice.clone zero src n = (some { arr := n, cap := src.len, elems := src.elems }, n + 1) := by
  cases src with
  | none => simp [Slice.clone, Slice.make, Slice.copy, Slice.len, Slice.elems]
  | some v => simp [Slice.clone, Slice.make, Slice.copy, Slice.len, Slice.elems]

/-- Cloning a slice moves the allocator forward only, and the slice it yields
refers to an allocation made by the clone. -/
theorem slice_clone_fresh {α : Type} (zero : α) (src : Slice α) (n : Addr) :
    n ≤ (Slice.clone zero src n).2 ∧ ∀ a ∈ (Slice.clone zero src n).1.addrs, n ≤ a := by
  rw [slice_clone_eq]
  simp [Slice.addrs]

/-- The `Pmp` branch on a present block: a fresh cell, the other fields as they
were, and `Deals` over a fresh array exactly when it has an element. -/
theorem pmp_clone_some {S : Schema} (p : Cell (Pmp S)) (n : Addr) :
    (Pmp.clone (some p) n).1 =
      some { addr := n
             val := { Deals := if p.val.Deals.len > 0 then
                                 some { arr := n + 1, cap := p.val.Deals.len,
                                        elems := p.val.Deals.elems }
                               else p.val.Deals
                      rest := p.val.rest } } := by
  simp only [Pmp.clone, Pmp.copyFrom, slice_clone_eq, Ptr.new, Ptr.store, Option.map_some']
  split <;> rfl

/-- The `Pmp` branch moves the allocator forward only, and the block it yields
sits in a cell allocated by the branch. -/
theorem pmp_clone_fresh {S : Schema} (q : Ptr (Pmp S)) (n : Addr) :
    n ≤ (Pmp.clone q n).2 ∧ ∀ a ∈ (Pmp.clone q n).1.addrs, n ≤ a := by
  cases q with
  | none => simp [Pmp.clone, Ptr.addrs]
  | some p =>
    refine ⟨?_, ?_⟩
    · simp only [Pmp.clone, Pmp.copyFrom, slice_clone_eq, Ptr.new]
      split
      · exact Nat.le_trans (Nat.le_succ n) (Nat.le_succ _)
      · exact Nat.le_succ n
    · rw [pmp_clone_some]
      simp [Ptr.addrs]

/-- The `Pmp` field of the copy is what the `Pmp` branch yields, run with the
allocator somewhere at or after its position at the start of `Copy`. -/
theorem Copy_pmp_field {S : Schema} (req : BidRequest S) (next : Addr) :
    ∃ n, next ≤ n ∧ (req.Copy next).1.Pmp = (Pmp.clone req.Pmp n).1 := by
  simp only [BidRequest.Copy]
  have h1 := (ptr_clone_fresh S.zeroSite req.Site next).1
  generalize Ptr.clone S.zeroSite req.Site next = r1 at *
  have h2 := (ptr_clone_fresh S.zeroApp req.App r1.2).1
  generalize Ptr.clone S.zeroApp req.App r1.2 = r2 at *
  have h3 := (ptr_clone_fresh S.zeroDevice req.Device r2.2).1
  generalize Ptr.clone S.zeroDevice req.Device r2.2 = r3 at *
  have h4 := (ptr_clone_fresh S.zeroUser req.User r3.2).1
  generalize Ptr.clone S.zeroUser req.User r3.2 = r4 at *
  have h5 := (ptr_clone_fresh S.zeroSource req.Source r4.2).1
  generalize Ptr.clone S.zeroSource req.Source r4.2 = r5 at *
  have h6 := (ptr_clone_fresh S.zeroRegulations req.Regs r5.2).1
  generalize Ptr.clone S.zeroRegulations req.Regs r5.2 = r6 at *
  exact ⟨r6.2, Nat.le_trans h1 (Nat.le_trans h2 (Nat.le_trans h3 (Nat.le_trans h4
    (Nat.le_trans h5 h6)))), rfl⟩

/-- Every cell and backing array behind the copy's own fields was allocated by
`Copy`. -/
theorem Copy_fields_fresh {S : Schema} (req : BidRequest S) (next : Addr) :
    ∀ a ∈ (req.Copy next).1.fieldAddrs, next ≤ a := by
  simp only [BidRequest.Copy, BidRequest.fieldAddrs]
  obtain ⟨h1, g1⟩ := ptr_clone_fresh S.zeroSite req.Site next
  generalize Ptr.clone S.zeroSite req.Site next = r1 at *
  obtain ⟨h2, g2⟩ := ptr_clone_fresh S.zeroApp req.App r1.2
  generalize Ptr.clone S.zeroApp req.App r1.2 = r2 at *
  have k2 := Nat.le_trans h1 h2
  obtain ⟨h3, g3⟩ := ptr_clone_fresh S.zeroDevice req.Device r2.2
  generalize Ptr.clone S.zeroDevice req.Device r2.2 = r3 at *
  have k3 := Nat.le_trans k2 h3
  obtain ⟨h4, g4⟩ := ptr_clone_fresh S.zeroUser req.User r3.2
  generalize Ptr.clone S.zeroUser req.User r3.2 = r4 at *
  have k4 := Nat.le_trans k3 h4
  obtain ⟨h5, g5⟩ := ptr_clone_fresh S.zeroSource req.Source r4.2
  generalize Ptr.clone S.zeroSource req.Source r4.2 = r5 at *
  have k5 := Nat.le_trans k4 h5
  obtain ⟨h6, g6⟩ := ptr_clone_fresh S.zeroRegulations req.Regs r5.2
  generalize Ptr.clone S.zeroRegulations req.Regs r5.2 = r6 at *
  have k6 := Nat.le_trans k5 h6
  obtain ⟨h7, g7⟩ := pmp_clone_fresh req.Pmp r6.2
  generalize Pmp.clone req.Pmp r6.2 = r7 at *
  have k7 := Nat.le_trans k6 h7
  obtain ⟨h8, g8⟩ := slice_clone_fresh S.zeroImpression req.Imp r7.2
  generalize Slice.clone S.zeroImpression req.Imp r7.2 = r8 at *
  have k8 := Nat.le_trans k7 h8
  obtain ⟨h9, g9⟩ := slice_clone_fresh "" req.WSeat r8.2
  generalize Slice.clone "" req.WSeat r8.2 = r9 at *
  have k9 := Nat.le_trans k8 h9
  obtain ⟨h10, g10⟩ := slice_clone_fresh "" req.BSeat r9.2
  generalize Slice.clone "" req.BSeat r9.2 = r10 at *
  have k10 := Nat.le_trans k9 h10
  obtain ⟨h11, g11⟩ := slice_clone_fresh "" req.WLang r10.2
  generalize Slice.clone "" req.WLang r10.2 = r11 at *
  have k11 := Nat.le_trans k10 h11
  obtain ⟨h12, g12⟩ := slice_clone_fresh "" req.Cur r11.2
  generalize Slice.clone "" req.Cur r11.2 = r12 at *
  have k12 := Nat.le_trans k11 h12
  obtain ⟨h13, g13⟩ := slice_clone_fresh "" req.Bcat r12.2
  generalize Slice.clone "" req.Bcat r12.2 = r13 at *
  have k13 := Nat.le_trans k12 h13
  obtain ⟨h14, g14⟩ := slice_clone_fresh "" req.BAdv r13.2
  generalize Slice.clone "" req.BAdv r13.2 = r14 at *
  have k14 := Nat.le_trans k13 h14
  obtain ⟨_, g15⟩ := slice_clone_fresh "" req.BApp r14.2
  generalize Slice.clone "" req.BApp r14.2 = r15 at *
  intro a ha
  simp only [List.mem_append] at ha
  rcases ha with ((((((((((((((ha | ha) | ha) | ha) | ha) | ha) | ha) | ha) | ha) | ha) | ha)
    | ha) | ha) | ha) | ha)
  · exact g1 a ha
  · exact Nat.le_trans h1 (g2 a ha)
  · exact Nat.le_trans k2 (g3 a ha)
  · exact Nat.le_trans k3 (g4 a ha)
  · exact Nat.le_trans k4 (g5 a ha)
  · exact Nat.le_trans k5 (g6 a ha)
  · exact Nat.le_trans k6 (g7 a ha)
  · exact Nat.le_trans k7 (g8 a ha)
  · exact Nat.le_trans k8 (g9 a ha)
  · exact Nat.le_trans k9 (g10 a ha)
  · exact Nat.le_trans k10 (g11 a ha)
  · exact Nat.le_trans k11 (g12 a ha)
  · exact Nat.le_trans k12 (g13 a ha)
  · exact Nat.le_trans k13 (g14 a ha)
  · exact Nat.le_trans k14 (g15 a ha)

/-- Forgetting identities after cloning a pointer gives the pointer first seen. -/
theorem ptr_clone_erase {α : Type} (zero : α) (q : Ptr α) (n : Addr) :
    (Ptr.clone zero q n).1.erase = q.erase := by
  cases q <;> rfl

/-- Forgetting identities after cloning a slice gives the non-nil slice of the
elements first seen. -/
theorem slice_clone_erase {α : Type} (zero : α) (src : Slice α) (n : Addr) :
    (Slice.clone zero src n).1.erase = some (OpenRTB.Slice.elems src.erase) := by
  rw [slice_clone_eq]
  cases src <;> rfl

/-- Forgetting identities after the `Pmp` branch gives the block first seen. -/
theorem pmp_clone_erase {S : Schema} (q : Ptr (Pmp S)) (n : Addr) :
    (Pmp.clone q n).1.map (fun c => c.val.erase) = q.map (fun c => c.val.erase) := by
  cases q with
  | none => rfl
  | some p =>
    rw [pmp_clone_some]
    rcases p with ⟨addr, deals, rest⟩
    cases deals with
    | none => rfl
    | some v =>
      by_cases h : v.elems.length > 0
      · simp [Pmp.erase, Slice.erase, Slice.len, Slice.elems, h]
      · simp [Pmp.erase, Slice.erase, Slice.len, Slice.elems, h]

/-- The two embeddings of `Copy` agree: forgetting identities in the copy gives
the copy of the request with identities forgotten. -/
theorem Copy_erase {S : Schema} (req : BidRequest S) (next : Addr) :
    (req.Copy next).1.erase = req.erase.Copy := by
  rw [Copy_eq]
  simp only [BidRequest.Copy, BidRequest.erase, BidRequest.copyLiteral]
  simp only [ptr_clone_erase, slice_clone_erase, pmp_clone_erase]

/-- C15, as the code has it: for a request whose pmp block is present with a
non-nil `Deals`, the copy's `Deals` is non-nil and holds the same deals in the
same order; when there is at least one deal it lies in an array allocated by
`Copy`, which is none of the request's; when there is none it is the request's
own slice, backing array and capacity included. -/
theorem Copy_deals {S : Schema} (req : BidRequest S) (next : Addr)
    (hwf : ∀ a ∈ req.addrs, a < next) (p : Cell (Pmp S)) (hp : req.Pmp = some p)
    (d : View S.Deal) (hd : p.val.Deals = some d) :
    ∃ p' d', (req.Copy next).1.Pmp = some p' ∧ p'.val.Deals = some d' ∧ d'.elems = d.elems
      ∧ (d.elems ≠ [] → next ≤ d'.arr ∧ d'.arr ∉ req.addrs)
      ∧ (d.elems = [] → d' = d) := by
  obtain ⟨n, hn, hP⟩ := Copy_pmp_field req next
  rw [hp, pmp_clone_some, hd] at hP
  by_cases hlen : d.elems = []
  · have hz : ¬ Slice.len (some d) > 0 := by simp [Slice.len, hlen]
    rw [if_neg hz] at hP
    exact ⟨_, d, hP, rfl, rfl, fun h => absurd hlen h, fun _ => rfl⟩
  · have hz : Slice.len (some d) > 0 := by
      simp only [Slice.len]
      exact List.length_pos.mpr hlen
    rw [if_pos hz] at hP
    refine ⟨_, _, hP, rfl, rfl, fun _ => ?_, fun h => absurd h hlen⟩
    have hfresh : next ≤ n + 1 := Nat.le_trans hn (Nat.le_succ n)
    exact ⟨hfresh, fun hmem => Nat.lt_irrefl _ (Nat.lt_of_lt_of_le (hwf _ hmem) hfresh)⟩

/-- C15 at the sample request with two deals, copied with the allocator at 10:
the copy's deals are the same two, in a new array. -/
theorem Copy_deals_witness :
    (∀ a ∈ dealsRequest.addrs, a < 10)
      ∧ ∃ p' d', (dealsRequest.Copy 10).1.Pmp = some p' ∧ p'.val.Deals = some d'
          ∧ d'.elems = ["d1", "d2"] ∧ 10 ≤ d'.arr ∧ d'.arr ∉ dealsRequest.addrs := by
  refine ⟨by decide, ?_⟩
  obtain ⟨p', d', hP, hD, he, hne, _⟩ :=
    Copy_deals dealsRequest 10 (by decide) _ rfl { arr := 2, cap := 4, elems := ["d1", "d2"] } rfl
  exact ⟨p', d', hP, hD, he, hne (by decide)⟩

/-- C15 fails as stated for a present `Deals` of length zero: copied with the
allocator at 10, the request with an empty `Deals` over an array of capacity 4
gets no new array for it. -/
theorem Copy_deals_empty_not_fresh :
    (∀ a ∈ emptyDealsRequest.addrs, a < 10)
      ∧ emptyDealsRequest.Pmp
          = some { addr := 1, val := { Deals := some { arr := 2, cap := 4, elems := [] }, rest := 0 } }
      ∧ ¬ ∃ p' d', (emptyDealsRequest.Copy 10).1.Pmp = some p' ∧ p'.val.Deals = some d'
            ∧ 10 ≤ d'.arr ∧ d'.arr ∉ emptyDealsRequest.addrs ∧ d'.elems = [] := by
  refine ⟨by decide, rfl, ?_⟩
  rintro ⟨p', d', hP, hD, hfresh, _, _⟩
  have hcopy : (emptyDealsRequest.Copy 10).1.Pmp
      = some { addr := 10, val := { Deals := some { arr := 2, cap := 4, elems := [] }, rest := 0 } } :=
    rfl
  rw [hcopy] at hP
  cases hP
  cases hD
  exact absurd hfresh (by decide)

/-- C16, as the code has it: storage of the copy that is also storage of the
request can only be the backing array of a present `Pmp.Deals` of length zero.
The cells of the seven optional sub-objects, the backing arrays of the eight
sequences of the envelope and the backing array of a non-empty `Pmp.Deals` are
allocated by `Copy`. -/
theorem Copy_independent {S : Schema} (req : BidRequest S) (next : Addr)
    (hwf : ∀ a ∈ req.addrs, a < next) :
    ∀ a, a ∈ (req.Copy next).1.addrs → a ∈ req.addrs →
      ∃ p d, req.Pmp = some p ∧ p.val.Deals = some d ∧ d.elems = [] ∧ a = d.arr := by
  intro a ha hreq
  have hold : a < next := hwf a hreq
  rcases List.mem_append.mp ha with hf | hdeals
  · exact absurd hold (Nat.not_lt.mpr (Copy_fields_fresh req next a hf))
  · obtain ⟨n, hn, hP⟩ := Copy_pmp_field req next
    simp only [BidRequest.dealsAddrs, hP] at hdeals
    cases hq : req.Pmp with
    | none =>
      rw [hq] at hdeals
      simp [Pmp.clone] at hdeals
    | some p =>
      rw [hq, pmp_clone_some] at hdeals
      by_cases hlen : p.val.Deals.len > 0
      · simp only [if_pos hlen, Slice.addrs, List.mem_singleton] at hdeals
        have hfresh : next ≤ a := by
          rw [hdeals]
          exact Nat.le_trans hn (Nat.le_succ n)
        exact absurd hold (Nat.not_lt.mpr hfresh)
      · simp only [if_neg hlen] at hdeals
        cases hD : p.val.Deals with
        | none =>
          rw [hD] at hdeals
          simp [Slice.addrs] at hdeals
        | some d =>
          rw [hD] at hdeals hlen
          simp only [Slice.addrs, List.mem_singleton] at hdeals
          refine ⟨p, d, rfl, hD, ?_, hdeals⟩
          simp only [Slice.len, gt_iff_lt, not_lt, Nat.le_zero] at hlen
          exact List.length_eq_zero.mp hlen

/-- C16 at concrete requests, copied with the allocator at 10: with two deals the
copy shares no storage with the request; with `Deals` emptied, array 2 is in
both. -/
theorem Copy_independent_witness :
    (∀ a ∈ dealsRequest.addrs, a < 10)
      ∧ (∀ a, a ∈ (dealsRequest.Copy 10).1.addrs → a ∈ dealsRequest.addrs →
          ∃ p d, dealsRequest.Pmp = some p ∧ p.val.Deals = some d ∧ d.elems = [] ∧ a = d.arr)
      ∧ (∀ a ∈ (dealsRequest.Copy 10).1.addrs, a ∉ dealsRequest.addrs) :=
  ⟨by decide, Copy_independent dealsRequest 10 (by decide), by decide⟩

/-- C16 fails as stated: copied with the allocator at 10, the request whose
`Deals` was emptied for reuse shares the array of capacity 4 with its copy. -/
theorem Copy_shares_empty_deals :
    (∀ a ∈ reusedRequest.addrs, a < 10)
      ∧ (2 ∈ reusedRequest.addrs ∧ 2 ∈ (reusedRequest.Copy 10).1.addrs)
      ∧ ¬ ∀ a ∈ (reusedRequest.Copy 10).1.addrs, a ∉ reusedRequest.addrs := by
  decide

end Mem

end OpenRTB
